import Mathlib

/-!
Verification of the tool/workflow binding and parameter-injection engine of
the `comfyui-mcp` server, as a shallow embedding in Lean.

The embedding models JavaScript runtime values as a JSON-like inductive
type. JavaScript objects and arrays are represented uniformly: an array is
an object whose entries are keyed by the decimal index strings produced by
`JSON.parse`, tagged with `isArr` so that `Array.isArray` checks are
expressible. JavaScript numbers are modelled as rationals (all values
appearing in configs and workflows are finite). `Math.random` is modelled
as an oracle argument supplying one rational per field evaluation.
-/

/-- JSON-like runtime value. `obj true entries` is a JS array (entries keyed
by index strings), `obj false entries` a plain object. -/
inductive JVal where
  | null : JVal
  | bool : Bool → JVal
  | num : ℚ → JVal
  | str : String → JVal
  | obj : Bool → List (String × JVal) → JVal

/-- A JS object's own-property map, in insertion order. -/
abbrev EntryMap := List (String × JVal)

/-- Property read (`o[k]`): first entry with the given key. -/
def lookupEntry {α : Type} : List (String × α) → String → Option α
  | [], _ => none
  | (k', v) :: rest, k => if k' = k then some v else lookupEntry rest k

/-- Property write (`o[k] = v`): replace the first entry with the given key
in place, else append (JS insertion-order semantics). -/
def setEntry {α : Type} : List (String × α) → String → α → List (String × α)
  | [], k, v => [(k, v)]
  | (k', v') :: rest, k, v =>
      if k' = k then (k, v) :: rest else (k', v') :: setEntry rest k v

/-- Remove every entry with the given key. -/
def removeEntry {α : Type} (l : List (String × α)) (k : String) : List (String × α) :=
  l.filter (fun kv => kv.1 ≠ k)

/-- JS truthiness of a modelled value. -/
def jsTruthy : JVal → Bool
  | .null => false
  | .bool b => b
  | .num q => !(q == 0)
  | .str s => !s.data.isEmpty
  | .obj _ _ => true

/-- `typeof v === "object"` (true for objects, arrays and `null`). -/
def jsTypeofObject : JVal → Bool
  | .null => true
  | .obj _ _ => true
  | _ => false

/-- JS whitespace for `Number()` trimming. -/
def isJsWs (c : Char) : Bool :=
  c == ' ' || c == '\t' || c == '\n' || c == '\r'

/-- Value of a decimal digit string. -/
def digitsToNat (cs : List Char) : ℕ :=
  cs.foldl (fun acc c => acc * 10 + (c.toNat - 48)) 0

/-- `Number(s)` on strings, modelled for plain decimal literals
(optional sign, integer part, optional fraction). Returns `none` for NaN
and for the non-finite results (so `Number.isFinite` fails exactly on
`none`). Exponent and hexadecimal forms are not modelled; no claim
depends on them. The empty / all-whitespace string converts to `0` as in
JS. -/
def jsToNumber (s : String) : Option ℚ :=
  let cs := (s.data.dropWhile isJsWs).reverse.dropWhile isJsWs |>.reverse
  if cs.isEmpty then some 0
  else
    let signed : ℤ × List Char :=
      match cs with
      | '-' :: rest => (-1, rest)
      | '+' :: rest => (1, rest)
      | rest => (1, rest)
    let intPart := signed.2.takeWhile Char.isDigit
    let after := signed.2.dropWhile Char.isDigit
    match after with
    | [] =>
        if intPart.isEmpty then none
        else some (mkRat (signed.1 * digitsToNat intPart) 1)
    | '.' :: frac =>
        if frac.all Char.isDigit && !(intPart.isEmpty && frac.isEmpty) then
          some (mkRat (signed.1 * (digitsToNat intPart * 10 ^ frac.length + digitsToNat frac))
            (10 ^ frac.length))
        else none
    | _ => none

/-- Split a char list on a separator char (JS `String.prototype.split`). -/
def splitOnChar (sep : Char) : List Char → List (List Char)
  | [] => [[]]
  | c :: rest =>
      let r := splitOnChar sep rest
      if c = sep then [] :: r
      else
        match r with
        | [] => [[c]]
        | seg :: segs => (c :: seg) :: segs

/-- `attributePath.split(".").filter(Boolean)`. -/
def splitSegments (path : String) : List String :=
  ((splitOnChar '.' path.data).map (fun l => String.mk l)).filter
    (fun s => !s.data.isEmpty)

/-- `path.includes(".")`. -/
def containsDot (path : String) : Bool :=
  path.data.contains '.'

/-! ### Tool configuration data model (`src/mcp/toolBuilder.ts`) -/

/-- `ToolFieldMapping`. The source names the second component `attribute`
(a Lean keyword), rendered here under the spec's name `attributePath`. -/
structure ToolFieldMapping where
  node : String
  attributePath : String

/-- `ToolFieldGenerator`. The strategy tag is kept as an open string: the
resolver dispatches by string comparison and treats unknown tags as
unsupported. `options` is carried verbatim and never read by the
resolver. -/
structure ToolFieldGenerator where
  type : String
  options : Option EntryMap

/-- `ToolFieldConfig`. The `required` and `default` properties are the
extra properties read by `buildToolInputSchema` through its
`ToolFieldConfig & {required?, default?}` cast. -/
structure ToolFieldConfig where
  name : String
  description : Option String
  type : String
  mapping : ToolFieldMapping
  generator : Option ToolFieldGenerator
  required : Option Bool
  default : Option JVal

/-- `ToolConfig`. -/
structure ToolConfig where
  name : String
  description : Option String
  fields : List ToolFieldConfig
  workflow : Option String

/-- A workflow node after loading: the raw record (id, type and all
pass-through keys). -/
abbrev NodeRec := EntryMap

/-- `WorkflowGraph`: parsed nodes plus the remaining top-level keys
(`links` and any pass-through key), kept verbatim. -/
structure WorkflowGraph where
  nodes : List NodeRec
  rest : EntryMap

/-- `WorkflowDefinition`. -/
structure WorkflowDefinition where
  name : String
  description : Option String
  data : WorkflowGraph

/-- Provenance tag of a tool definition (`source: "config" | "workflow"`). -/
inductive ToolSource where
  | config : ToolSource
  | workflow : ToolSource

/-- `ToolDefinition`. -/
structure ToolDefinition where
  name : String
  description : Option String
  fields : List ToolFieldConfig
  workflowName : Option String
  source : ToolSource

/-- Caller-supplied arguments (`params: Record<string, unknown>`), as a
JSON-shaped map: `hasOwnProperty` is key presence. -/
abbrev Params := EntryMap

/-! ### Zod schemas and loading (`toolBuilder.ts`) -/

/-- `workflowNodeSchema`: `z.object({ id: z.number().int(), type: z.string().min(1) }).passthrough()`.
Returns the full record on success. -/
def parseWorkflowNode (v : JVal) : Option NodeRec :=
  match v with
  | .obj false fields =>
      match lookupEntry fields "id", lookupEntry fields "type" with
      | some (.num q), some (.str s) =>
          if q.den = 1 ∧ ¬ s.data.isEmpty then some fields else none
      | _, _ => none
  | _ => none

/-- `workflowSchema`: `z.object({ nodes: z.array(workflowNodeSchema), links: z.array(z.unknown()).optional() }).passthrough()`.

Only the canonical nodes-array shape is accepted; any other payload
(including a keyed "Shape B" export) fails to parse. -/
def parseWorkflow (v : JVal) : Option WorkflowGraph :=
  match v with
  | .obj false fields =>
      match lookupEntry fields "nodes" with
      | some (.obj true nodeEntries) =>
          match (nodeEntries.map (fun kv => kv.2)).mapM parseWorkflowNode with
          | some ns =>
              match lookupEntry fields "links" with
              | some (.obj true _) => some ⟨ns, removeEntry fields "nodes"⟩
              | none => some ⟨ns, removeEntry fields "nodes"⟩
              | some _ => none
          | none => none
      | _ => none
  | _ => none

/-- `loadWorkflowsFromDir`, over an abstract directory listing of
`(file stem, parsed JSON)` pairs: entries whose payload fails
`workflowSchema` are skipped (logged and dropped), never fatal to the
batch; a loaded definition carries no description. -/
def loadWorkflowsFromDir (entries : List (String × JVal)) : List WorkflowDefinition :=
  entries.filterMap (fun kv => (parseWorkflow kv.2).map (fun g => ⟨kv.1, none, g⟩))

/-- Default workflow-name resolution in `buildTools`: an explicit
`tool.workflow` reference wins, else the tool's own name when a workflow
of that name exists. -/
def resolveWorkflowNameDefault (workflows : List WorkflowDefinition) (tool : ToolConfig) :
    Option String :=
  match tool.workflow with
  | some w => some w
  | none =>
      if workflows.any (fun d => d.name = tool.name) then some tool.name else none

/-- Conversion of one explicit `ToolConfig` into a `ToolDefinition`
(the `toolsFromConfigs` map step of `buildTools`). -/
def toolFromConfig (workflows : List WorkflowDefinition) (tool : ToolConfig) : ToolDefinition :=
  { name := tool.name
    description := tool.description
    fields := tool.fields
    workflowName := resolveWorkflowNameDefault workflows tool
    source := .config }

/-- Implicit tool derived from an unconfigured workflow (the
`toolsFromWorkflows` map step of `buildTools`). -/
def toolFromWorkflow (w : WorkflowDefinition) : ToolDefinition :=
  { name := w.name
    description := some (match w.description with
      | some d => d
      | none => "Workflow " ++ w.name)
    fields := []
    workflowName := some w.name
    source := .workflow }

/-- `buildTools` with the default `includeUnconfiguredWorkflows = true` and
default resolver (no caller in the repository overrides either): explicit
tools first, then one implicit tool per workflow whose name is not among
the explicit tools' names. -/
def buildTools (toolConfigs : List ToolConfig) (workflows : List WorkflowDefinition) :
    List ToolDefinition :=
  let toolsFromConfigs := toolConfigs.map (toolFromConfig workflows)
  let configuredNames := toolsFromConfigs.map (fun t => t.name)
  let toolsFromWorkflows :=
    (workflows.filter (fun w => !configuredNames.contains w.name)).map toolFromWorkflow
  toolsFromConfigs ++ toolsFromWorkflows

/-- `InMemoryToolRepository.getByName` / `InMemoryWorkflowRepository.getByName`:
first list element with the given name. -/
def getToolByName (tools : List ToolDefinition) (n : String) : Option ToolDefinition :=
  tools.find? (fun t => t.name == n)

/-- `InMemoryWorkflowRepository.getByName`. -/
def getWorkflowByName (workflows : List WorkflowDefinition) (n : String) :
    Option WorkflowDefinition :=
  workflows.find? (fun w => w.name == n)

/-! ### Field resolver & injector (`src/server/index` = `unnamed/part_001`) -/

/-- Warning emitted when a field's target node is not found. -/
def nodeNotFoundMsg (node : String) : String :=
  "Нода " ++ node ++ " не найдена в workflow."

/-- Warning emitted when a field is neither supplied nor generated. -/
def missingFieldMsg (name : String) : String :=
  "Поле " ++ name ++ " отсутствует во входных данных."

/-- Warning emitted for an unrecognized generator strategy. -/
def unsupportedGeneratorMsg (t : String) : String :=
  "Генератор " ++ t ++ " пока не поддерживается."

/-- `Number.MAX_SAFE_INTEGER`. -/
def maxSafeInteger : ℚ := 9007199254740991

/-- `node.id === numericKey` (strict equality of the stored `id` value with
a number). -/
def nodeIdMatches (n : NodeRec) (q : ℚ) : Bool :=
  match lookupEntry n "id" with
  | some (.num q') => q' == q
  | _ => false

/-- `node.type === nodeKey` (strict equality of the stored `type` value with
a string). -/
def nodeTypeMatches (n : NodeRec) (s : String) : Bool :=
  match lookupEntry n "type" with
  | some (.str s') => s' == s
  | _ => false

/-- `findWorkflowNode`: numeric id match first (only when `Number(nodeKey)`
is finite), else type match. -/
def findWorkflowNode (w : WorkflowGraph) (nodeKey : String) : Option NodeRec :=
  let matchById :=
    match jsToNumber nodeKey with
    | some q => w.nodes.find? (fun n => nodeIdMatches n q)
    | none => none
  match matchById with
  | some n => some n
  | none => w.nodes.find? (fun n => nodeTypeMatches n nodeKey)

/-- First list position satisfying a predicate, counting from `i`. -/
def findEntryGo {α : Type} (p : α → Bool) : List α → ℕ → Option (ℕ × α)
  | [], _ => none
  | a :: as, i => if p a then some (i, a) else findEntryGo p as (i + 1)

/-- Position-returning variant of `findWorkflowNode`, used to express the
source's in-place mutation of the found node as a functional update of the
node list. `findWorkflowNode_eq_entry` ties the two together. -/
def findWorkflowNodeEntry (w : WorkflowGraph) (nodeKey : String) : Option (ℕ × NodeRec) :=
  let matchById :=
    match jsToNumber nodeKey with
    | some q => findEntryGo (fun n => nodeIdMatches n q) w.nodes 0
    | none => none
  match matchById with
  | some e => some e
  | none => findEntryGo (fun n => nodeTypeMatches n nodeKey) w.nodes 0

/-- Outcome of `resolveFieldValue`. -/
structure Resolved where
  value : Option JVal
  warning : Option String

/-- `resolveFieldValue`: a supplied argument wins on key presence
(`hasOwnProperty`); else a declared generator runs (`seed` =
`Math.floor(Math.random() * Number.MAX_SAFE_INTEGER)`, `random` =
`Math.random()`, with `rand` the oracle value of this `Math.random()`
call); an unknown strategy warns; a field with no generator warns. -/
def resolveFieldValue (field : ToolFieldConfig) (params : Params) (rand : ℚ) : Resolved :=
  match lookupEntry params field.name with
  | some v => { value := some v, warning := none }
  | none =>
      match field.generator with
      | none => { value := none, warning := some (missingFieldMsg field.name) }
      | some g =>
          if g.type = "seed" then
            { value := some (.num ((⌊rand * maxSafeInteger⌋ : ℤ) : ℚ)), warning := none }
          else if g.type = "random" then
            { value := some (.num rand), warning := none }
          else
            { value := none, warning := some (unsupportedGeneratorMsg g.type) }

/-- Inner loop of `setNestedValue` on nonempty segment lists: descend into
an existing object (or array) value, replace any other value with a fresh
`{}`, and write the leaf at the last segment. -/
def setNestedGo (fields : EntryMap) : List String → JVal → EntryMap
  | [], _ => fields
  | [k], v => setEntry fields k v
  | k :: rest, v =>
      let inner :=
        match lookupEntry fields k with
        | some (.obj b fs) => JVal.obj b (setNestedGo fs rest v)
        | _ => JVal.obj false (setNestedGo [] rest v)
      setEntry fields k inner

/-- `setNestedValue(target, attributePath, value)`: split on `.`, drop empty
segments, no-op when no segment remains. -/
def setNestedValue (target : EntryMap) (attributePath : String) (v : JVal) : EntryMap :=
  let segments := splitSegments attributePath
  if segments.isEmpty then target else setNestedGo target segments v

/-- The non-dotted write of `applyToolParamsToWorkflow`: into the node's
`inputs` value when it is a (truthy) object, else its `properties` value
when it is one, else directly on the node record. -/
def writeFlat (node : NodeRec) (attr : String) (v : JVal) : NodeRec :=
  match lookupEntry node "inputs" with
  | some (.obj b fs) => setEntry node "inputs" (.obj b (setEntry fs attr v))
  | _ =>
      match lookupEntry node "properties" with
      | some (.obj b fs) => setEntry node "properties" (.obj b (setEntry fs attr v))
      | _ => setEntry node attr v

/-- The complete write step applied to a found node for a resolved value. -/
def writeStep (node : NodeRec) (attr : String) (v : JVal) : NodeRec :=
  if containsDot attr then setNestedValue node attr v else writeFlat node attr v

/-- One iteration of the `for (const field of tool.fields)` loop of
`applyToolParamsToWorkflow`, acting on the cloned graph. -/
def applyField (w : WorkflowGraph) (field : ToolFieldConfig) (params : Params) (rand : ℚ) :
    WorkflowGraph × List String :=
  match findWorkflowNodeEntry w field.mapping.node with
  | none => (w, [nodeNotFoundMsg field.mapping.node])
  | some (i, node) =>
      let res := resolveFieldValue field params rand
      let ws := res.warning.toList
      match res.value with
      | none => (w, ws)
      | some v => ({ nodes := w.nodes.set i (writeStep node field.mapping.attributePath v),
                     rest := w.rest }, ws)

/-- The field loop of `applyToolParamsToWorkflow`; `rands n` is the oracle
value used by the `n`-th field of the list. -/
def applyFields (w : WorkflowGraph) (fields : List ToolFieldConfig) (params : Params)
    (rands : ℕ → ℚ) : WorkflowGraph × List String :=
  match fields with
  | [] => (w, [])
  | f :: fs =>
      let r := applyField w f params (rands 0)
      let rec' := applyFields r.1 fs params (fun n => rands (n + 1))
      (rec'.1, r.2 ++ rec'.2)

/-- `structuredClone` on the pure value model: a deep copy denotes the same
value. (The reference-level model below captures the aliasing content.) -/
def structuredClonePure (w : WorkflowGraph) : WorkflowGraph := w

/-- `applyToolParamsToWorkflow`: clone the template, apply every field in
declaration order, return the mutated clone and the accumulated
warnings. -/
def applyToolParamsToWorkflow (workflow : WorkflowGraph) (tool : ToolDefinition)
    (params : Params) (rands : ℕ → ℚ) : WorkflowGraph × List String :=
  applyFields (structuredClonePure workflow) tool.fields params rands

/-! ### Default invoker (`DefaultToolInvoker.invoke`) -/

/-- `InvokeResult`. -/
structure InvokeResult where
  status : String
  tool : Option String
  params : Option Params
  workflow : Option WorkflowGraph
  warnings : Option (List String)
  message : Option String

/-- Error message for a tool without a bound workflow. -/
def noWorkflowMsg (tool : String) : String :=
  "Для инструмента " ++ tool ++ " не указан workflow."

/-- Error message for an unresolvable workflow reference. -/
def workflowNotFoundMsg (wn : String) : String :=
  "Workflow " ++ wn ++ " не найден."

/-- `DefaultToolInvoker.invoke`: structured error for an unbound tool
(`!tool.workflowName`, so an empty name also counts as unbound) or an
unknown workflow, else `ok` with the mutated graph and the warning list
(which is omitted when empty). -/
def invokeDefault (workflows : List WorkflowDefinition) (tool : ToolDefinition)
    (params : Params) (rands : ℕ → ℚ) : InvokeResult :=
  match tool.workflowName with
  | none =>
      { status := "error", tool := some tool.name, params := some params,
        workflow := none, warnings := none, message := some (noWorkflowMsg tool.name) }
  | some wn =>
      if wn.data.isEmpty then
        { status := "error", tool := some tool.name, params := some params,
          workflow := none, warnings := none, message := some (noWorkflowMsg tool.name) }
      else
        match getWorkflowByName workflows wn with
        | none =>
            { status := "error", tool := some tool.name, params := some params,
              workflow := none, warnings := none, message := some (workflowNotFoundMsg wn) }
        | some wf =>
            let r := applyToolParamsToWorkflow wf.data tool params rands
            { status := "ok", tool := some tool.name, params := some params,
              workflow := some r.1,
              warnings := if r.2.length ≠ 0 then some r.2 else none,
              message := none }

/-! ### Schema projector (`buildToolInputSchema`) -/

/-- Per-property schema projected for one field. -/
structure PropertySchema where
  type : String
  description : Option String
  default : Option JVal

/-- The projected JSON-Schema-shaped input descriptor. -/
structure ToolInputSchema where
  type : String
  properties : List (String × PropertySchema)
  required : Option (List String)

/-- The `isRequired` computation of `buildToolInputSchema`:
`required === true || (required === undefined && default === undefined && !generator)`. -/
def isFieldRequired (f : ToolFieldConfig) : Bool :=
  (match f.required with
   | some true => true
   | _ => false)
  ||
  ((match f.required with
    | none => true
    | _ => false)
   && f.default.isNone && f.generator.isNone)

/-- One iteration of the `buildToolInputSchema` loop: add the property
schema, push the name onto `required` when `isRequired`. -/
def schemaStep (acc : List (String × PropertySchema) × List String) (f : ToolFieldConfig) :
    List (String × PropertySchema) × List String :=
  (setEntry acc.1 f.name ⟨f.type, f.description, f.default⟩,
   if isFieldRequired f then acc.2 ++ [f.name] else acc.2)

/-- `buildToolInputSchema`: `{ type: "object", properties, required }`, with
`required` omitted when empty. -/
def buildToolInputSchema (fields : List ToolFieldConfig) : ToolInputSchema :=
  let acc := fields.foldl schemaStep ([], [])
  ⟨"object", acc.1, if acc.2.isEmpty then none else some acc.2⟩

/-! ### ComfyUI prompt construction (`comfyUiClient`, `buildPromptFromWorkflow`) -/

/-- `isPromptLike`: a non-array object each of whose values is an object
with a string `class_type` and a present `inputs` property. -/
def isPromptLike (v : JVal) : Bool :=
  match v with
  | .obj false entries =>
      entries.all (fun kv =>
        match kv.2 with
        | .obj _ nf =>
            (match lookupEntry nf "class_type" with
             | some (.str _) => true
             | _ => false)
            && (lookupEntry nf "inputs").isSome
        | _ => false)
  | _ => false

/-- `coerceRecord`: a non-array object passes through, everything else
becomes `{}`. -/
def coerceRecord (v : Option JVal) : JVal :=
  match v with
  | some (.obj false fs) => .obj false fs
  | _ => .obj false []

/-- `class_type ?? type` (`??` falls through on `null`/absent only). -/
def classTypeOf (node : NodeRec) : Option JVal :=
  match lookupEntry node "class_type" with
  | some .null => lookupEntry node "type"
  | some c => some c
  | none => lookupEntry node "type"

/-- Rendering of a node id as a prompt key (`String(nodeId)`); ids of
loaded workflows are integers, rendered as their decimal digits. -/
def jsNumToString (q : ℚ) : String :=
  if q.den = 1 then toString q.num else toString q

/-- Conversion of one canonical node into a keyed prompt entry, skipping
nodes whose `id` is not a (finite) number and nodes with a falsy type tag;
`inputs` is the node's `inputs` object when it is a non-array object, else
its `properties` object coerced, else `{}`. -/
def promptEntryStep (acc : EntryMap) (node : NodeRec) : EntryMap :=
  match lookupEntry node "id" with
  | some (.num q) =>
      (match classTypeOf node with
       | some c =>
           if jsTruthy c then
             let inputs :=
               match lookupEntry node "inputs" with
               | some (.obj false fs) => JVal.obj false fs
               | _ => coerceRecord (lookupEntry node "properties")
             setEntry acc (jsNumToString q)
               (JVal.obj false [("class_type", c), ("inputs", inputs)])
           else acc
       | none => acc)
  | _ => acc

/-- Error thrown when no prompt entry could be formed. -/
def emptyPromptMsg : String :=
  "Не удалось сформировать prompt для ComfyUI из workflow."

/-- `buildPromptFromWorkflow`: pass an existing prompt-like `prompt`
sub-object through unchanged; otherwise convert the canonical nodes into a
keyed prompt and throw (`Except.error`) when zero nodes convert. (The
source's guard for a non-array `nodes` value is unrepresentable here:
`WorkflowGraph.nodes` is always a list.) -/
def buildPromptFromWorkflow (w : WorkflowGraph) : Except String JVal :=
  let viaNodes :=
    let entries := w.nodes.foldl promptEntryStep []
    if entries.isEmpty then Except.error emptyPromptMsg
    else Except.ok (JVal.obj false entries)
  match lookupEntry w.rest "prompt" with
  | some p => if isPromptLike p then Except.ok p else viaNodes
  | none => viaNodes

/-! ### Reference-level model of `applyToolParamsToWorkflow`

The frame property of claim C1 — `apply` never mutates the template it is
given — is about object identity, which the pure value model cannot
express. This section re-runs the same algorithm over an explicit heap of
JS objects: values are primitives or references, `structuredClone`
allocates fresh cells, every write updates a cell in place. -/

/-- Primitive JS value. -/
inductive JPrim where
  | null : JPrim
  | bool : Bool → JPrim
  | num : ℚ → JPrim
  | str : String → JPrim

/-- Heap-level value: primitive or reference to a cell. -/
inductive HVal where
  | prim : JPrim → HVal
  | ref : ℕ → HVal

/-- A heap cell: one JS object (or array, when `isArr`) with its
own-property map. -/
structure HCell where
  isArr : Bool
  fields : List (String × HVal)

/-- The heap: cells addressed by allocation order. -/
abbrev Heap := List HCell

/-- Read a cell. -/
def Heap.readC (h : Heap) (a : ℕ) : Option HCell := h.get? a

/-- Replace a cell. -/
def Heap.writeC (h : Heap) (a : ℕ) (c : HCell) : Heap := h.set a c

/-- Allocate a fresh cell at the end of the heap. -/
def Heap.alloc (h : Heap) (c : HCell) : Heap × ℕ := (h ++ [c], h.length)

/-- `o[k]` for the object stored at address `a`. -/
def Heap.getField (h : Heap) (a : ℕ) (k : String) : Option HVal :=
  match h.readC a with
  | some c => lookupEntry c.fields k
  | none => none

/-- `o[k] = v` for the object stored at address `a` (no-op on a dangling
address, which no reachable state produces). -/
def Heap.setField (h : Heap) (a : ℕ) (k : String) (v : HVal) : Heap :=
  match h.readC a with
  | some c => h.writeC a ⟨c.isArr, setEntry c.fields k v⟩
  | none => h

/-- Run a heap-threading value transformer over every field value in
order, failing when the transformer fails. -/
def overFields (f : Heap → HVal → Option (Heap × HVal)) :
    Heap → List (String × HVal) → Option (Heap × List (String × HVal))
  | h, [] => some (h, [])
  | h, (k, v) :: rest =>
      match f h v with
      | none => none
      | some (h', v') =>
          match overFields f h' rest with
          | none => none
          | some (h'', rest') => some (h'', (k, v') :: rest')

/-- `structuredClone` of a value, with recursion fuel (all reachable
states are acyclic, so enough fuel always exists): primitives copy,
references allocate a fresh cell whose fields are clones. -/
def cloneV : ℕ → Heap → HVal → Option (Heap × HVal)
  | 0 => fun h v =>
      match v with
      | .prim p => some (h, .prim p)
      | .ref _ => none
  | fuel + 1 => fun h v =>
      match v with
      | .prim p => some (h, .prim p)
      | .ref a =>
          match h.readC a with
          | none => none
          | some c =>
              match overFields (cloneV fuel) h c.fields with
              | none => none
              | some (h', fs) =>
                  let al := Heap.alloc h' ⟨c.isArr, fs⟩
                  some (al.1, .ref al.2)

/-- Deep read of one primitive. -/
def JPrim.toJVal : JPrim → JVal
  | .null => .null
  | .bool b => .bool b
  | .num q => .num q
  | .str s => .str s

/-- Deep read of a field list given a reader for the values. -/
def readFieldsWith (f : HVal → Option JVal) :
    List (String × HVal) → Option (List (String × JVal))
  | [] => some []
  | (k, v) :: rest =>
      match f v with
      | none => none
      | some jv =>
          match readFieldsWith f rest with
          | none => none
          | some rest' => some ((k, jv) :: rest')

/-- Deep read of a value out of the heap (the denotation used to state
deep-equality), with recursion fuel. -/
def readV : ℕ → Heap → HVal → Option JVal
  | 0 => fun _ v =>
      match v with
      | .prim p => some p.toJVal
      | .ref _ => none
  | fuel + 1 => fun h v =>
      match v with
      | .prim p => some p.toJVal
      | .ref a =>
          match h.readC a with
          | none => none
          | some c =>
              match readFieldsWith (readV fuel h) c.fields with
              | none => none
              | some fs => some (.obj c.isArr fs)

/-- Run a heap-threading total transformer over every entry value. -/
def overJEntries (f : Heap → JVal → Heap × HVal) :
    Heap → List (String × JVal) → Heap × List (String × HVal)
  | h, [] => (h, [])
  | h, (k, v) :: rest =>
      let r := f h v
      let r' := overJEntries f r.1 rest
      (r'.1, (k, r.2) :: r'.2)

/-- Materialize a caller-supplied JSON value into the heap (arguments
arrive as a freshly parsed request body, disjoint from the template's
object graph). The recursion fuel is shared with `structuredClone`'s: any
fuel at least the depth of the supplied arguments is exact, and the frame
results below hold for every fuel. -/
def allocJVal : ℕ → Heap → JVal → Heap × HVal
  | 0 => fun h _ => (h, .prim .null)
  | fuel + 1 => fun h v =>
      match v with
      | .null => (h, .prim .null)
      | .bool b => (h, .prim (.bool b))
      | .num q => (h, .prim (.num q))
      | .str s => (h, .prim (.str s))
      | .obj b fs =>
          let r := overJEntries (allocJVal fuel) h fs
          let al := Heap.alloc r.1 ⟨b, r.2⟩
          (al.1, .ref al.2)

/-- `node.id === numericKey` on the heap. -/
def nodeIdMatchesH (h : Heap) (a : ℕ) (q : ℚ) : Bool :=
  match h.getField a "id" with
  | some (.prim (.num q')) => q' == q
  | _ => false

/-- `node.type === nodeKey` on the heap. -/
def nodeTypeMatchesH (h : Heap) (a : ℕ) (s : String) : Bool :=
  match h.getField a "type" with
  | some (.prim (.str s')) => s' == s
  | _ => false

/-- First node reference in an array cell's entries whose cell satisfies
the predicate (`nodes.find(...)`; non-reference entries never match a
property read). -/
def findNodeInEntries (p : ℕ → Bool) : List (String × HVal) → Option ℕ
  | [] => none
  | (_, v) :: rest =>
      match v with
      | .ref a => if p a then some a else findNodeInEntries p rest
      | .prim _ => findNodeInEntries p rest

/-- `findWorkflowNode` on the heap: read the graph root's `nodes` array and
search it, numeric id match first, then type match. -/
def findNodeAddr (h : Heap) (g : ℕ) (key : String) : Option ℕ :=
  match h.getField g "nodes" with
  | some (.ref an) =>
      match h.readC an with
      | some c =>
          let byId :=
            match jsToNumber key with
            | some q => findNodeInEntries (fun a => nodeIdMatchesH h a q) c.fields
            | none => none
          (match byId with
           | some a => some a
           | none => findNodeInEntries (fun a => nodeTypeMatchesH h a key) c.fields)
      | none => none
  | _ => none

/-- `setNestedValue` on the heap, over the nonempty segment list: descend
through existing object references, replace any other value with a fresh
`{}`, write the leaf at the last segment. -/
def setNestedH (h : Heap) (a : ℕ) : List String → HVal → Heap
  | [], _ => h
  | [k], v => h.setField a k v
  | k :: rest, v =>
      match h.getField a k with
      | some (.ref b) => setNestedH h b rest v
      | _ =>
          let al := h.alloc ⟨false, []⟩
          setNestedH ((al.1).setField a k (.ref al.2)) al.2 rest v

/-- The non-dotted write on the heap: into the node's `inputs` object when
present, else its `properties` object, else onto the node itself. -/
def writeFlatH (h : Heap) (a : ℕ) (attr : String) (v : HVal) : Heap :=
  match h.getField a "inputs" with
  | some (.ref b) => h.setField b attr v
  | _ =>
      match h.getField a "properties" with
      | some (.ref b) => h.setField b attr v
      | _ => h.setField a attr v

/-- One field iteration of `applyToolParamsToWorkflow` on the heap, acting
on the cloned graph rooted at `g`. -/
def applyFieldH (fuel : ℕ) (h : Heap) (g : ℕ) (field : ToolFieldConfig) (params : Params)
    (rand : ℚ) : Heap × List String :=
  match findNodeAddr h g field.mapping.node with
  | none => (h, [nodeNotFoundMsg field.mapping.node])
  | some na =>
      let res := resolveFieldValue field params rand
      let ws := res.warning.toList
      match res.value with
      | none => (h, ws)
      | some v =>
          let av := allocJVal fuel h v
          if containsDot field.mapping.attributePath then
            let segs := splitSegments field.mapping.attributePath
            (if segs.isEmpty then av.1 else setNestedH av.1 na segs av.2, ws)
          else (writeFlatH av.1 na field.mapping.attributePath av.2, ws)

/-- The field loop on the heap. -/
def applyFieldsH (fuel : ℕ) (h : Heap) (g : ℕ) (fields : List ToolFieldConfig) (params : Params)
    (rands : ℕ → ℚ) : Heap × List String :=
  match fields with
  | [] => (h, [])
  | f :: fs =>
      let r := applyFieldH fuel h g f params (rands 0)
      let rest := applyFieldsH fuel r.1 g fs params (fun n => rands (n + 1))
      (rest.1, r.2 ++ rest.2)

/-- `applyToolParamsToWorkflow` on the heap: `structuredClone` the template
rooted at `g`, then run the field loop on the clone; returns the final
heap, the clone's root address and the warnings (`none` only when the
clone fuel is exhausted, which never happens on acyclic templates with
enough fuel). -/
def applyToolParamsToWorkflowH (fuel : ℕ) (h : Heap) (g : ℕ) (tool : ToolDefinition)
    (params : Params) (rands : ℕ → ℚ) : Option (Heap × ℕ × List String) :=
  match cloneV fuel h (.ref g) with
  | some (h₁, .ref g') =>
      let r := applyFieldsH fuel h₁ g' tool.fields params rands
      some (r.1, g', r.2)
  | _ => none

/-- Heap well-formedness, decidably: every reference stored in any cell
points below the heap's length. -/
def heapWFb (h : Heap) : Bool :=
  h.all (fun c => c.fields.all (fun kv =>
    match kv.2 with
    | .ref a => a < h.length
    | .prim _ => true))

/-! ### Spec-side characterizations and frame predicates -/

/-- Read a dotted path: descend through object entries, yielding the value
at the final segment. -/
def getPath : EntryMap → List String → Option JVal
  | _, [] => none
  | fields, [k] => lookupEntry fields k
  | fields, k :: rest =>
      match lookupEntry fields k with
      | some (.obj _ fs) => getPath fs rest
      | _ => none

/-- The spec's description of the non-dotted write (§4.4 "Write",
first-available-container policy): into the node's existing `inputs`
sub-map if present, else its existing `properties` sub-map if present,
else directly onto the node's attribute map. -/
def writeFlatSpec (node : NodeRec) (attr : String) (v : JVal) : NodeRec :=
  match lookupEntry node "inputs" with
  | some (.obj b m) => setEntry node "inputs" (.obj b (setEntry m attr v))
  | _ =>
      match lookupEntry node "properties" with
      | some (.obj b m) => setEntry node "properties" (.obj b (setEntry m attr v))
      | _ => setEntry node attr v

/-- Required-name projection of a schema. -/
def requiredNames (s : ToolInputSchema) : List String :=
  match s.required with
  | some l => l
  | none => []

/-- Oracle stream shifted past the first `n` fields. -/
def shiftRands (rands : ℕ → ℚ) (n : ℕ) : ℕ → ℚ := fun i => rands (i + n)

/-- All references in a value point at or above `n`. -/
def HVal.geRefs (n : ℕ) : HVal → Prop
  | .prim _ => True
  | .ref a => n ≤ a

/-- All references stored in a field list point at or above `n`. -/
def entriesGE (n : ℕ) (l : List (String × HVal)) : Prop :=
  ∀ kv ∈ l, HVal.geRefs n kv.2

/-- Every cell at address `≥ n` only references addresses `≥ n`. -/
def regionGE (n : ℕ) (h : Heap) : Prop :=
  ∀ a c, n ≤ a → h.get? a = some c → entriesGE n c.fields

/-- Invariant tying the running heap to the pre-call heap `h₀`: the cells
below `n` (the template's region) are untouched, the heap has not shrunk,
and the region at or above `n` (clone and fresh allocations) is closed
upward. -/
structure HeapInv (n : ℕ) (h₀ h : Heap) : Prop where
  below : ∀ a, a < n → h.get? a = h₀.get? a
  len : n ≤ h.length
  region : regionGE n h

/-- All references in a value point strictly below `n`. -/
def HVal.ltRefs (n : ℕ) : HVal → Prop
  | .prim _ => True
  | .ref a => a < n

/-- All references stored in a field list point strictly below `n`. -/
def entriesLT (n : ℕ) (l : List (String × HVal)) : Prop :=
  ∀ kv ∈ l, HVal.ltRefs n kv.2

/-- Every cell below `n` only references addresses below `n`. -/
def closedBelow (n : ℕ) (h : Heap) : Prop :=
  ∀ a c, a < n → h.get? a = some c → entriesLT n c.fields

/-! ### Concrete instances used by witnesses and counterexamples -/

/-- A minimal tool field with the given name, target and attribute path. -/
def mkField (nm node attr : String) : ToolFieldConfig :=
  ⟨nm, none, "string", ⟨node, attr⟩, none, none, none⟩

/-- Example node `{id: 6, type: "CLIPTextEncode", inputs: {text: "old"}}`. -/
def exNode6 : NodeRec :=
  [("id", .num 6), ("type", .str "CLIPTextEncode"),
   ("inputs", .obj false [("text", .str "old")])]

/-- Example one-node graph. -/
def exGraph : WorkflowGraph := ⟨[exNode6], []⟩

/-- Example workflow definitions named `a` and `b`. -/
def exWorkflowA : WorkflowDefinition := ⟨"a", none, exGraph⟩

/-- Second example workflow definition. -/
def exWorkflowB : WorkflowDefinition := ⟨"b", none, exGraph⟩

/-- A tool bound to workflow `a` whose only field targets a node id absent
from the graph. -/
def exToolMissingNode : ToolDefinition :=
  ⟨"t", none, [mkField "p" "9" "x"], some "a", .config⟩

/-- Two explicit tool configs sharing the name `dup`. -/
def dupCfg1 : ToolConfig := ⟨"dup", some "first", [mkField "f" "1" "x"], some "a"⟩

/-- Second explicit tool config named `dup`. -/
def dupCfg2 : ToolConfig := ⟨"dup", some "second", [mkField "f" "1" "x"], some "b"⟩

/-- An explicit tool named `a` that explicitly references workflow `b`:
its resolved workflow name claims `b`, leaving graph `a` unclaimed. -/
def cfg8 : ToolConfig := ⟨"a", none, [mkField "f" "1" "x"], some "b"⟩

/-- An explicit tool named `a` with no explicit reference (binds to the
workflow named `a` by the name convention). -/
def cfgA : ToolConfig := ⟨"a", none, [mkField "positive_prompt" "6" "inputs.text"], none⟩

/-- A "Shape B" keyed export: top-level keys are stringified node ids. -/
def shapeBPayload : JVal :=
  .obj false [("3", .obj false [("class_type", .str "KSampler"),
    ("inputs", .obj false [("seed", .num 1)])])]

/-- Canonical graph exercising prompt conversion: one `class_type` node,
one node with no type tag (skipped), one `type` node whose inputs come
from `properties` coercion. -/
def c9ConvGraph : WorkflowGraph :=
  ⟨[[("id", .num 3), ("class_type", .str "K"), ("inputs", .obj false [("a", .num 1)])],
    [("id", .num 4)],
    [("id", .num 5), ("type", .str "T"), ("properties", .obj false [("p", .num 2)])]],
   []⟩

/-- The prompt expected from converting `c9ConvGraph`. -/
def c9ConvPrompt : JVal :=
  .obj false
    [("3", .obj false [("class_type", .str "K"), ("inputs", .obj false [("a", .num 1)])]),
     ("5", .obj false [("class_type", .str "T"), ("inputs", .obj false [("p", .num 2)])])]

/-- Field declaring a `seed` generator with `min`/`max` options. -/
def seedFieldEx : ToolFieldConfig :=
  ⟨"seedv", none, "integer", ⟨"1", "seed"⟩,
   some ⟨"seed", some [("min", .num 5), ("max", .num 10)]⟩, none, none⟩

/-- Field declaring a bare `seed` generator. -/
def seedFieldPlain : ToolFieldConfig :=
  ⟨"seedv", none, "integer", ⟨"1", "seed"⟩, some ⟨"seed", none⟩, none, none⟩

/-- Explicitly required field. -/
def fldRequired : ToolFieldConfig := ⟨"r", none, "string", ⟨"1", "a"⟩, none, some true, none⟩

/-- Defaulted field. -/
def fldDefaulted : ToolFieldConfig :=
  ⟨"d", none, "string", ⟨"1", "a"⟩, none, none, some (.num 1)⟩

/-- Generated field. -/
def fldGenerated : ToolFieldConfig :=
  ⟨"g", none, "integer", ⟨"1", "a"⟩, some ⟨"seed", none⟩, none, none⟩

/-- Graph whose single node has id `0`. -/
def exGraph0 : WorkflowGraph := ⟨[[("id", .num 0), ("type", .str "Zero")]], []⟩

/-- Example template heap: cell 0 the `inputs` object, cell 1 the node,
cell 2 the `nodes` array, cell 3 the graph root. -/
def exHeap : Heap :=
  [⟨false, [("text", .prim (.str "old"))]⟩,
   ⟨false, [("id", .prim (.num 6)), ("type", .prim (.str "T")), ("inputs", .ref 0)]⟩,
   ⟨true, [("0", .ref 1)]⟩,
   ⟨false, [("nodes", .ref 2)]⟩]

/-- Tool writing `inputs.text` of node 6, used on `exHeap`. -/
def exHeapTool : ToolDefinition :=
  ⟨"t", none, [mkField "p" "6" "inputs.text"], some "a", .config⟩

/-! ### Helper lemmas: entry maps and list access -/

theorem lookupEntry_setEntry_self {α : Type} (l : List (String × α)) (k : String) (v : α) :
    lookupEntry (setEntry l k v) k = some v := by
  induction l with
  | nil => simp [setEntry, lookupEntry]
  | cons kv rest ih =>
      obtain ⟨k', v'⟩ := kv
      by_cases hk : k' = k
      · simp [setEntry, hk, lookupEntry]
      · simp [setEntry, hk, lookupEntry, ih]

theorem lookupEntry_setEntry_ne {α : Type} (l : List (String × α)) (k k' : String) (v : α)
    (h : k' ≠ k) : lookupEntry (setEntry l k v) k' = lookupEntry l k' := by
  have hne : ¬ k = k' := fun hh => h hh.symm
  induction l with
  | nil => simp [setEntry, lookupEntry, hne]
  | cons kv rest ih =>
      obtain ⟨k₀, v₀⟩ := kv
      by_cases hk : k₀ = k
      · subst hk
        simp [setEntry, lookupEntry, hne]
      · simp only [setEntry, if_neg hk, lookupEntry]
        by_cases hk' : k₀ = k'
        · simp [hk']
        · simp [hk', ih]

theorem mem_setEntry {α : Type} {l : List (String × α)} {k : String} {v : α}
    {x : String × α} (hx : x ∈ setEntry l k v) : x = (k, v) ∨ x ∈ l := by
  induction l with
  | nil => simpa [setEntry] using hx
  | cons kv rest ih =>
      obtain ⟨k₀, v₀⟩ := kv
      by_cases hk : k₀ = k
      · rw [setEntry, if_pos hk] at hx
        rcases List.mem_cons.mp hx with hx' | hx'
        · exact Or.inl hx'
        · exact Or.inr (List.mem_cons_of_mem _ hx')
      · rw [setEntry, if_neg hk] at hx
        rcases List.mem_cons.mp hx with hx' | hx'
        · exact Or.inr (by simp [hx'])
        · rcases ih hx' with hx'' | hx''
          · exact Or.inl hx''
          · exact Or.inr (List.mem_cons_of_mem _ hx'')

theorem lookupEntry_mem {α : Type} {l : List (String × α)} {k : String} {v : α}
    (h : lookupEntry l k = some v) : (k, v) ∈ l := by
  induction l with
  | nil => simp [lookupEntry] at h
  | cons kv rest ih =>
      obtain ⟨k₀, v₀⟩ := kv
      by_cases hk : k₀ = k
      · subst hk
        rw [lookupEntry, if_pos rfl] at h
        obtain rfl := Option.some.inj h
        exact List.mem_cons_self _ _
      · rw [lookupEntry, if_neg hk] at h
        exact List.mem_cons_of_mem _ (ih h)

theorem findEntryGo_map_snd {α : Type} (p : α → Bool) (l : List α) (i : ℕ) :
    (findEntryGo p l i).map (fun e => e.2) = l.find? p := by
  induction l generalizing i with
  | nil => simp [findEntryGo, List.find?]
  | cons a rest ih =>
      by_cases hp : p a
      · simp [findEntryGo, hp, List.find?]
      · simp [findEntryGo, hp, List.find?, ih]

theorem findEntryGo_fst_lt {α : Type} {p : α → Bool} {l : List α} {i j : ℕ} {a : α}
    (h : findEntryGo p l i = some (j, a)) : i ≤ j ∧ j - i < l.length := by
  induction l generalizing i with
  | nil => simp [findEntryGo] at h
  | cons b rest ih =>
      rw [findEntryGo] at h
      by_cases hp : p b
      · rw [if_pos hp] at h
        have h1 : i = j := congrArg Prod.fst (Option.some.inj h)
        simp only [List.length_cons]
        omega
      · rw [if_neg hp] at h
        have := ih h
        simp only [List.length_cons]
        omega

theorem findWorkflowNode_eq_entry (w : WorkflowGraph) (key : String) :
    findWorkflowNode w key = (findWorkflowNodeEntry w key).map (fun e => e.2) := by
  unfold findWorkflowNode findWorkflowNodeEntry
  cases hq : jsToNumber key with
  | none =>
      simp only
      rw [← findEntryGo_map_snd (fun n => nodeTypeMatches n key) w.nodes 0]
  | some q =>
      simp only
      rw [← findEntryGo_map_snd (fun n => nodeIdMatches n q) w.nodes 0]
      cases findEntryGo (fun n => nodeIdMatches n q) w.nodes 0 with
      | some e => simp
      | none =>
          simp only [Option.map_none]
          rw [← findEntryGo_map_snd (fun n => nodeTypeMatches n key) w.nodes 0]
          cases findEntryGo (fun n => nodeTypeMatches n key) w.nodes 0 <;> simp

/-! ### Nested-write lemmas -/

theorem getPath_setNestedGo (v : JVal) :
    ∀ (segs : List String) (fields : EntryMap), segs ≠ [] →
      getPath (setNestedGo fields segs v) segs = some v := by
  intro segs
  induction segs with
  | nil => intro _ h; exact absurd rfl h
  | cons k rest ih =>
      intro fields _
      cases rest with
      | nil => simp [setNestedGo, getPath, lookupEntry_setEntry_self]
      | cons k' rest' =>
          cases hlk : lookupEntry fields k with
          | some val =>
              cases val <;>
                simp [setNestedGo, hlk, getPath, lookupEntry_setEntry_self,
                  ih _ (by simp)]
          | none =>
              simp [setNestedGo, hlk, getPath, lookupEntry_setEntry_self,
                ih _ (by simp)]

/-- Claim C2: for a resolved field value, the write step follows the
first-available-container policy for non-dotted attribute paths (never
creating an absent `inputs` map), and treats a dotted path as a nested
write relative to the node's own attribute-map root, creating
intermediate maps and placing the leaf value at the final segment; the
field loop applies exactly this write step to the found node. -/
theorem writeStep_policy (node : NodeRec) (attr : String) (v : JVal) :
    (containsDot attr = false → writeStep node attr v = writeFlatSpec node attr v)
    ∧ (containsDot attr = false → attr ≠ "inputs" → lookupEntry node "inputs" = none →
        lookupEntry (writeStep node attr v) "inputs" = none)
    ∧ (containsDot attr = true → writeStep node attr v = setNestedValue node attr v)
    ∧ (containsDot attr = true → splitSegments attr ≠ [] →
        getPath (writeStep node attr v) (splitSegments attr) = some v)
    ∧ (∀ (w : WorkflowGraph) (f : ToolFieldConfig) (params : Params) (rand : ℚ) (i : ℕ)
          (nd : NodeRec), findWorkflowNodeEntry w f.mapping.node = some (i, nd) →
        (resolveFieldValue f params rand).value = some v →
        (resolveFieldValue f params rand).warning = none →
        applyField w f params rand =
          ({ nodes := w.nodes.set i (writeStep nd f.mapping.attributePath v),
             rest := w.rest }, [])) := by
  refine ⟨?_, ?_, ?_, ?_, ?_⟩
  · intro h
    rw [writeStep, h]
    rfl
  · intro h hattr hin
    rw [writeStep, h]
    simp only [Bool.false_eq_true, if_false, writeFlat, hin]
    cases hp : lookupEntry node "properties" with
    | some val =>
        cases val <;>
          first
          | exact lookupEntry_setEntry_ne node attr "inputs" v (Ne.symm hattr) |>.trans hin
          | exact lookupEntry_setEntry_ne node "properties" "inputs" _ (by simp) |>.trans hin
    | none => exact lookupEntry_setEntry_ne node attr "inputs" v (Ne.symm hattr) |>.trans hin
  · intro h
    rw [writeStep, h]
    rfl
  · intro h hseg
    rw [writeStep, h, if_pos rfl, setNestedValue]
    have hE : (splitSegments attr).isEmpty = false := by
      cases hs : splitSegments attr with
      | nil => exact absurd hs hseg
      | cons a l => simp
    rw [hE]
    simp only [Bool.false_eq_true, if_false]
    exact getPath_setNestedGo v (splitSegments attr) node hseg
  · intro w f params rand i nd hfind hval hwarn
    rw [applyField, hfind]
    simp only [hval, hwarn, Option.toList]

/-- Witness for C2: the dotted write places the leaf value, and a
non-dotted write onto a node without `inputs` creates no `inputs` map. -/
theorem writeStep_policy_witness :
    getPath (writeStep exNode6 "inputs.text" (.str "new")) (splitSegments "inputs.text") =
      some (.str "new")
    ∧ lookupEntry (writeStep [("id", JVal.num 1)] "text" (.str "v")) "inputs" = none :=
  ⟨(writeStep_policy exNode6 "inputs.text" (.str "new")).2.2.2.1 (by rfl) (by decide),
   (writeStep_policy [("id", JVal.num 1)] "text" (.str "v")).2.1 (by rfl) (by decide) (by rfl)⟩

/-- Claim C3: a supplied argument wins on key presence (so explicit
`false`, `0`, `""` are used verbatim, never replaced by a generator); a
field with neither argument nor generator yields the missing-field
warning and no value; an unrecognized generator strategy yields a warning
and no value; and whenever no value resolves, the graph is returned
unchanged. -/
theorem resolveFieldValue_priority (f : ToolFieldConfig) (params : Params) (rand : ℚ) :
    (∀ v, lookupEntry params f.name = some v →
        resolveFieldValue f params rand = ⟨some v, none⟩)
    ∧ (lookupEntry params f.name = none → f.generator = none →
        resolveFieldValue f params rand = ⟨none, some (missingFieldMsg f.name)⟩)
    ∧ (∀ g, lookupEntry params f.name = none → f.generator = some g →
        g.type ≠ "seed" → g.type ≠ "random" →
        resolveFieldValue f params rand = ⟨none, some (unsupportedGeneratorMsg g.type)⟩)
    ∧ (∀ w, (resolveFieldValue f params rand).value = none →
        (applyField w f params rand).1 = w) := by
  refine ⟨?_, ?_, ?_, ?_⟩
  · intro v hv
    rw [resolveFieldValue, hv]
  · intro hp hg
    rw [resolveFieldValue, hp, hg]
  · intro g hp hg hs hr
    rw [resolveFieldValue, hp, hg]
    simp only [if_neg hs, if_neg hr]
  · intro w hval
    rw [applyField]
    cases hf : findWorkflowNodeEntry w f.mapping.node with
    | none => rfl
    | some e =>
        obtain ⟨i, nd⟩ := e
        simp only [hval]

/-- Witness for C3: an explicit `false` argument wins over a declared
generator; a generator-free unsupplied field warns; an unknown strategy
warns; an unresolved field leaves the graph unchanged. -/
theorem resolveFieldValue_priority_witness :
    resolveFieldValue ⟨"flag", none, "boolean", ⟨"1", "x"⟩, some ⟨"seed", none⟩, none, none⟩
        [("flag", .bool false)] 0 = ⟨some (.bool false), none⟩
    ∧ resolveFieldValue (mkField "m" "1" "x") [] 0 = ⟨none, some (missingFieldMsg "m")⟩
    ∧ resolveFieldValue ⟨"u", none, "string", ⟨"1", "x"⟩, some ⟨"uuid", none⟩, none, none⟩
        [] 0 = ⟨none, some (unsupportedGeneratorMsg "uuid")⟩
    ∧ (applyField exGraph (mkField "m" "6" "x") [] 0).1 = exGraph :=
  ⟨(resolveFieldValue_priority
      ⟨"flag", none, "boolean", ⟨"1", "x"⟩, some ⟨"seed", none⟩, none, none⟩
      [("flag", .bool false)] 0).1 (.bool false) rfl,
   (resolveFieldValue_priority (mkField "m" "1" "x") [] 0).2.1 rfl rfl,
   (resolveFieldValue_priority
      ⟨"u", none, "string", ⟨"1", "x"⟩, some ⟨"uuid", none⟩, none, none⟩
      [] 0).2.2.1 ⟨"uuid", none⟩ rfl rfl (by decide) (by decide),
   (resolveFieldValue_priority (mkField "m" "6" "x") [] 0).2.2.2 exGraph rfl⟩

/-- Claim C4: node lookup tries numeric id equality first and falls back
to type equality only when no numeric match exists; a numeric key `0`
resolves whenever a node with id `0` exists. -/
theorem findWorkflowNode_lookup_policy (w : WorkflowGraph) (key : String) :
    (findWorkflowNode w key =
      match (match jsToNumber key with
             | some q => w.nodes.find? (fun n => nodeIdMatches n q)
             | none => none) with
      | some n => some n
      | none => w.nodes.find? (fun n => nodeTypeMatches n key))
    ∧ (∀ q n, jsToNumber key = some q →
        w.nodes.find? (fun n => nodeIdMatches n q) = some n →
        findWorkflowNode w key = some n)
    ∧ (jsToNumber key = some 0 → (∃ n ∈ w.nodes, nodeIdMatches n 0) →
        ∃ n, findWorkflowNode w key = some n ∧ nodeIdMatches n 0 = true) := by
  refine ⟨rfl, ?_, ?_⟩
  · intro q n hq hf
    simp only [findWorkflowNode, hq, hf]
  · intro hq hex
    have hsome : (w.nodes.find? (fun n => nodeIdMatches n 0)).isSome :=
      List.find?_isSome.mpr (by simpa using hex)
    obtain ⟨n, hn⟩ := Option.isSome_iff_exists.mp hsome
    refine ⟨n, by simp only [findWorkflowNode, hq, hn], ?_⟩
    have hp := List.find?_some hn
    simpa using hp

/-- Witness for C4: a target of `"0"` resolves on a graph whose node has
id `0`, and a numeric match takes priority. -/
theorem findWorkflowNode_lookup_policy_witness :
    (∃ n, findWorkflowNode exGraph0 "0" = some n ∧ nodeIdMatches n 0 = true)
    ∧ findWorkflowNode exGraph "6" = some exNode6 :=
  ⟨(findWorkflowNode_lookup_policy exGraph0 "0").2.2 (by decide)
      ⟨[("id", .num 0), ("type", .str "Zero")], by simp [exGraph0], by decide⟩,
   (findWorkflowNode_lookup_policy exGraph "6").2.1 6 exNode6 (by decide) (by rfl)⟩

/-- The `required` accumulator of `buildToolInputSchema` collects, in
order, exactly the names of the fields `isFieldRequired` accepts. -/
theorem schemaStep_foldl_required (fields : List ToolFieldConfig)
    (ps : List (String × PropertySchema)) (rs : List String) :
    (fields.foldl schemaStep (ps, rs)).2 =
      rs ++ (fields.filter (fun f => isFieldRequired f)).map (fun f => f.name) := by
  induction fields generalizing ps rs with
  | nil => simp
  | cons f rest ih =>
      by_cases hf : isFieldRequired f
      · simp [List.foldl_cons, schemaStep, hf, ih]
      · simp [List.foldl_cons, schemaStep, hf, ih]

/-- Claim C5: a field is marked required iff `required === true` or
(`required` unset and neither `default` nor `generator` declared); the
schema's required list is exactly the names so accepted; projecting one
required, one defaulted and one generated field yields only the required
field's name. -/
theorem inputSchema_required_policy (fields : List ToolFieldConfig) (f : ToolFieldConfig) :
    (isFieldRequired f = true ↔
      f.required = some true ∨ (f.required = none ∧ f.default = none ∧ f.generator = none))
    ∧ requiredNames (buildToolInputSchema fields) =
        (fields.filter (fun x => isFieldRequired x)).map (fun x => x.name)
    ∧ (buildToolInputSchema [fldRequired, fldDefaulted, fldGenerated]).required = some ["r"] := by
  refine ⟨?_, ?_, by rfl⟩
  · cases hr : f.required with
    | none =>
        cases hd : f.default <;> cases hg : f.generator <;>
          simp [isFieldRequired, hr, hd, hg]
    | some b =>
        cases b <;> simp [isFieldRequired, hr]
  · rw [buildToolInputSchema]
    simp only [schemaStep_foldl_required fields [] [], List.nil_append]
    cases hE : ((fields.filter (fun x => isFieldRequired x)).map (fun x => x.name)).isEmpty
    · simp [requiredNames, hE]
    · simp [requiredNames, hE, List.isEmpty_iff.mp hE]

/-- Witness for C5 at a concrete field. -/
theorem inputSchema_required_policy_witness :
    (isFieldRequired fldGenerated = true ↔
      fldGenerated.required = some true ∨
        (fldGenerated.required = none ∧ fldGenerated.default = none ∧
          fldGenerated.generator = none))
    ∧ (buildToolInputSchema [fldRequired, fldDefaulted, fldGenerated]).required = some ["r"] :=
  ⟨(inputSchema_required_policy [] fldGenerated).1,
   (inputSchema_required_policy [] fldGenerated).2.2⟩

/-- Claim C6: warnings accumulate across the whole field list — appending
more fields extends processing rather than replacing it, so no per-field
failure aborts later fields — and a bound invocation whose application
produced warnings still returns status `ok` carrying the best-effort
mutated graph together with the non-empty warnings list. -/
theorem warnings_accumulate_and_invoke_ok :
    (∀ (w : WorkflowGraph) (fs gs : List ToolFieldConfig) (params : Params) (rands : ℕ → ℚ),
      applyFields w (fs ++ gs) params rands =
        ((applyFields (applyFields w fs params rands).1 gs params
            (shiftRands rands fs.length)).1,
         (applyFields w fs params rands).2 ++
           (applyFields (applyFields w fs params rands).1 gs params
             (shiftRands rands fs.length)).2))
    ∧ (∀ (workflows : List WorkflowDefinition) (tool : ToolDefinition) (params : Params)
          (rands : ℕ → ℚ) (wn : String) (wf : WorkflowDefinition),
        tool.workflowName = some wn → wn.data.isEmpty = false →
        getWorkflowByName workflows wn = some wf →
        (applyToolParamsToWorkflow wf.data tool params rands).2 ≠ [] →
        invokeDefault workflows tool params rands =
          { status := "ok", tool := some tool.name, params := some params,
            workflow := some (applyToolParamsToWorkflow wf.data tool params rands).1,
            warnings := some (applyToolParamsToWorkflow wf.data tool params rands).2,
            message := none }) := by
  constructor
  · intro w fs gs params rands
    induction fs generalizing w rands with
    | nil => rfl
    | cons f rest ih =>
        simp only [List.cons_append, applyFields, List.append_eq]
        rw [ih]
        have hsh : shiftRands (fun n => rands (n + 1)) rest.length =
            shiftRands rands (rest.length + 1) := by
          funext i
          simp [shiftRands, Nat.add_assoc]
        simp [hsh, List.append_assoc, List.length_cons]
  · intro workflows tool params rands wn wf hwn hne hgw hwarn
    rw [invokeDefault, hwn]
    simp only [hne, Bool.false_eq_true, if_false, hgw]
    have hlen : (applyToolParamsToWorkflow wf.data tool params rands).2.length ≠ 0 :=
      fun h0 => hwarn (List.length_eq_zero.mp h0)
    rw [if_pos hlen]

/-- Witness for C6: a tool whose only field targets a missing node still
invokes with status `ok` and a non-empty warnings list. -/
theorem warnings_accumulate_and_invoke_ok_witness :
    (applyToolParamsToWorkflow exWorkflowA.data exToolMissingNode [] (fun _ => 0)).2 ≠ []
    ∧ invokeDefault [exWorkflowA] exToolMissingNode [] (fun _ => 0) =
        { status := "ok", tool := some exToolMissingNode.name, params := some [],
          workflow :=
            some (applyToolParamsToWorkflow exWorkflowA.data exToolMissingNode []
              (fun _ => 0)).1,
          warnings :=
            some (applyToolParamsToWorkflow exWorkflowA.data exToolMissingNode []
              (fun _ => 0)).2,
          message := none } :=
  have hne : (applyToolParamsToWorkflow exWorkflowA.data exToolMissingNode []
      (fun _ => 0)).2 ≠ [] := by decide
  ⟨hne, warnings_accumulate_and_invoke_ok.2 [exWorkflowA] exToolMissingNode []
    (fun _ => 0) "a" exWorkflowA rfl rfl rfl hne⟩

/-- Counterexample for C7: two explicit tool definitions named `dup` are
both retained by `buildTools` — nothing rejects the configuration with a
`DuplicateToolName` error — and the repository's name lookup returns the
first of them, so the later definition does not shadow the earlier one
either. -/
theorem buildTools_duplicate_names_cex :
    (buildTools [dupCfg1, dupCfg2] []).map (fun t => t.name) = ["dup", "dup"]
    ∧ getToolByName (buildTools [dupCfg1, dupCfg2] []) "dup" =
        some (toolFromConfig [] dupCfg1)
    ∧ (toolFromConfig [] dupCfg1).description = some "first" :=
  ⟨rfl, rfl, rfl⟩

/-- Claim C7 (amended): `buildTools` keeps every explicit tool definition
in declaration order, duplicate names included — the configuration is not
rejected — and repository lookup by name returns the first definition
with that name, so an earlier definition shadows any later duplicate. -/
theorem buildTools_duplicates_retained (cs : List ToolConfig) (ws : List WorkflowDefinition) :
    (buildTools cs ws).take cs.length = cs.map (toolFromConfig ws)
    ∧ (∀ (t : ToolDefinition) (ts : List ToolDefinition),
        getToolByName (t :: ts) t.name = some t) := by
  constructor
  · rw [buildTools]
    conv_lhs => rw [show cs.length = (cs.map (toolFromConfig ws)).length from
      (List.length_map cs (toolFromConfig ws)).symm]
    exact List.take_left _ _
  · intro t ts
    simp [getToolByName, List.find?]

/-- Witness for C7 (amended), at a concrete duplicate configuration. -/
theorem buildTools_duplicates_retained_witness :
    (buildTools [dupCfg1, dupCfg2] []).take 2 = [dupCfg1, dupCfg2].map (toolFromConfig [])
    ∧ getToolByName [toolFromConfig [] dupCfg1, toolFromConfig [] dupCfg2]
        (toolFromConfig [] dupCfg1).name = some (toolFromConfig [] dupCfg1) :=
  ⟨(buildTools_duplicates_retained [dupCfg1, dupCfg2] []).1,
   (buildTools_duplicates_retained [dupCfg1, dupCfg2] []).2 (toolFromConfig [] dupCfg1)
     [toolFromConfig [] dupCfg2]⟩

/-- Counterexample for C8: with one explicit tool named `a` explicitly
bound to workflow `b`, no tool's resolved workflow name claims graph `a`
(first conjunct), yet the registry contains no implicit tool for `a`
(second conjunct) — implicit wrapping keys on explicit tool *names*, not
on resolved workflow names. -/
theorem buildTools_implicit_cex :
    ((buildTools [cfg8] [exWorkflowA, exWorkflowB]).filterMap
        (fun t => t.workflowName)).contains "a" = false
    ∧ (buildTools [cfg8] [exWorkflowA, exWorkflowB]).filter
        (fun t => (match t.source with
          | .workflow => true
          | .config => false) && t.name == "a") = [] :=
  ⟨rfl, rfl⟩

/-- Claim C8 (amended): after explicit tools are built, every workflow
whose *name is not among the explicit tool definitions' names* is wrapped
into exactly one implicit tool — name and bound workflow the graph's
name, the graph's description or a templated default, zero fields,
workflow provenance; in particular, with graphs `a`, `b` and one explicit
tool named `a`, exactly the explicit tool and one implicit tool for `b`
result. -/
theorem buildTools_implicit_by_name (cs : List ToolConfig) (ws : List WorkflowDefinition) :
    buildTools cs ws =
      cs.map (toolFromConfig ws) ++
        (ws.filter (fun w => !((cs.map (fun c => c.name)).contains w.name))).map
          toolFromWorkflow
    ∧ buildTools [cfgA] [exWorkflowA, exWorkflowB] =
        [⟨"a", none, cfgA.fields, some "a", .config⟩,
         ⟨"b", some "Workflow b", [], some "b", .workflow⟩] := by
  constructor
  · simp only [buildTools]
    have hname : (cs.map (toolFromConfig ws)).map (fun t => t.name) =
        cs.map (fun c => c.name) := by
      simp [toolFromConfig]
    rw [hname]
  · rfl

/-- Counterexample for C9: a Shape B keyed export does not parse under the
workflow schema — it is rejected and the directory entry is skipped, not
converted key-by-key into nodes. -/
theorem shapeB_not_accepted_cex :
    parseWorkflow shapeBPayload = none
    ∧ loadWorkflowsFromDir [("graph", shapeBPayload)] = [] :=
  ⟨rfl, rfl⟩

/-- Claim C9 (amended): load-time normalization accepts only the
canonical nodes-array shape (a Shape B keyed export fails to parse and
its file is skipped); a keyed prompt survives only as a prompt-like
`prompt` sub-object, which prompt construction passes through unchanged;
converting canonical nodes skips nodes without a numeric id or with a
falsy type tag (`class_type` preferred over `type`), and a conversion
yielding zero entries signals the empty-prompt error. -/
theorem promptConversion_policy :
    parseWorkflow shapeBPayload = none
    ∧ (∀ (w : WorkflowGraph) (p : JVal), lookupEntry w.rest "prompt" = some p →
        isPromptLike p = true → buildPromptFromWorkflow w = Except.ok p)
    ∧ (∀ w : WorkflowGraph, lookupEntry w.rest "prompt" = none → w.nodes = [] →
        buildPromptFromWorkflow w = Except.error emptyPromptMsg)
    ∧ buildPromptFromWorkflow c9ConvGraph = Except.ok c9ConvPrompt := by
  refine ⟨rfl, ?_, ?_, by rfl⟩
  · intro w p hp hlike
    rw [buildPromptFromWorkflow, hp]
    simp only [hlike, if_true]
  · intro w hp hn
    rw [buildPromptFromWorkflow, hp, hn]
    rfl

/-- Witness for C9 (amended): pass-through of a prompt-like sub-object and
the empty-conversion error, at concrete graphs. -/
theorem promptConversion_policy_witness :
    buildPromptFromWorkflow ⟨[], [("prompt", shapeBPayload)]⟩ = Except.ok shapeBPayload
    ∧ buildPromptFromWorkflow ⟨[], []⟩ = Except.error emptyPromptMsg :=
  ⟨promptConversion_policy.2.1 ⟨[], [("prompt", shapeBPayload)]⟩ shapeBPayload rfl rfl,
   promptConversion_policy.2.2.1 ⟨[], []⟩ rfl rfl⟩

/-- Counterexample for C10: with declared options `min: 5, max: 10` and
oracle value `1/2`, the seed value resolved (with no warning) is
`⌊(1/2)·MAX_SAFE_INTEGER⌋`, which exceeds the declared upper bound — the
generator never reads its options. -/
theorem seed_ignores_options_cex :
    resolveFieldValue seedFieldEx [] (1 / 2) =
      ⟨some (.num ((⌊(1 / 2 : ℚ) * maxSafeInteger⌋ : ℤ) : ℚ)), none⟩
    ∧ ¬ (((⌊(1 / 2 : ℚ) * maxSafeInteger⌋ : ℤ) : ℚ) ≤ 10) := by
  constructor
  · rfl
  · have h11 : (11 : ℤ) ≤ ⌊(1 / 2 : ℚ) * maxSafeInteger⌋ :=
      Int.le_floor.mpr (by norm_num [maxSafeInteger])
    intro hc
    rw [show (10 : ℚ) = ((10 : ℤ) : ℚ) by norm_num] at hc
    have := Int.cast_le.mp hc
    omega

/-- Claim C10 (amended): with no supplied argument, the `seed` strategy
resolves `⌊rand·MAX_SAFE_INTEGER⌋` — a non-negative integer below
`MAX_SAFE_INTEGER`, regardless of any declared generator options — with
no warning, and the `random` strategy resolves the oracle float in
`[0,1)` with no warning. -/
theorem generator_strategies_range (f : ToolFieldConfig) (params : Params) (rand : ℚ)
    (g : ToolFieldGenerator) (hp : lookupEntry params f.name = none)
    (hg : f.generator = some g) (h0 : 0 ≤ rand) (h1 : rand < 1) :
    (g.type = "seed" →
      resolveFieldValue f params rand =
        ⟨some (.num ((⌊rand * maxSafeInteger⌋ : ℤ) : ℚ)), none⟩
      ∧ 0 ≤ ⌊rand * maxSafeInteger⌋ ∧ ⌊rand * maxSafeInteger⌋ < 9007199254740991)
    ∧ (g.type = "random" →
      resolveFieldValue f params rand = ⟨some (.num rand), none⟩ ∧ 0 ≤ rand ∧ rand < 1) := by
  constructor
  · intro hs
    refine ⟨?_, ?_, ?_⟩
    · simp [resolveFieldValue, hp, hg, hs]
    · exact Int.floor_nonneg.mpr (mul_nonneg h0 (by norm_num [maxSafeInteger]))
    · have hM : (0 : ℚ) < maxSafeInteger := by norm_num [maxSafeInteger]
      have hmul : rand * maxSafeInteger < maxSafeInteger := by
        calc rand * maxSafeInteger < 1 * maxSafeInteger := mul_lt_mul_of_pos_right h1 hM
          _ = maxSafeInteger := one_mul _
      exact Int.floor_lt.mpr (by
        rw [show ((9007199254740991 : ℤ) : ℚ) = maxSafeInteger by norm_num [maxSafeInteger]]
        exact hmul)
  · intro hs
    have hns : g.type ≠ "seed" := by rw [hs]; decide
    refine ⟨?_, h0, h1⟩
    simp [resolveFieldValue, hp, hg, hs]

/-- Witness for C10 (amended) at oracle value `0`. -/
theorem generator_strategies_range_witness :
    (resolveFieldValue seedFieldPlain [] 0 =
        ⟨some (.num ((⌊(0 : ℚ) * maxSafeInteger⌋ : ℤ) : ℚ)), none⟩
      ∧ 0 ≤ ⌊(0 : ℚ) * maxSafeInteger⌋ ∧ ⌊(0 : ℚ) * maxSafeInteger⌋ < 9007199254740991)
    ∧ (resolveFieldValue ⟨"r", none, "number", ⟨"1", "x"⟩, some ⟨"random", none⟩, none, none⟩
          [] 0 = ⟨some (.num 0), none⟩ ∧ (0 : ℚ) ≤ 0 ∧ (0 : ℚ) < 1) :=
  ⟨(generator_strategies_range seedFieldPlain [] 0 ⟨"seed", none⟩ rfl rfl (le_refl 0)
      (by decide)).1 rfl,
   (generator_strategies_range ⟨"r", none, "number", ⟨"1", "x"⟩, some ⟨"random", none⟩, none,
      none⟩ [] 0 ⟨"random", none⟩ rfl rfl (le_refl 0) (by decide)).2 rfl⟩

/-! ### Frame lemmas for the reference-level model -/

theorem regionGE_of_full (h : Heap) : regionGE h.length h := by
  intro a c ha hc
  have : h.get? a = none := List.get?_eq_none.mpr ha
  rw [this] at hc
  exact absurd hc (by simp)

theorem heapInv_init (h : Heap) : HeapInv h.length h h :=
  ⟨fun _ _ => rfl, le_refl _, regionGE_of_full h⟩

theorem entriesGE_setEntry {n : ℕ} {l : List (String × HVal)} {k : String} {v : HVal}
    (hl : entriesGE n l) (hv : HVal.geRefs n v) : entriesGE n (setEntry l k v) := by
  intro kv hkv
  rcases mem_setEntry hkv with h | h
  · rw [h]; exact hv
  · exact hl kv h

theorem regionGE_append {n : ℕ} {h : Heap} {c : HCell}
    (hr : regionGE n h) (hc : entriesGE n c.fields) : regionGE n (h ++ [c]) := by
  intro a c' ha hc'
  rcases lt_trichotomy a h.length with hlt | heq | hgt
  · rw [List.get?_eq_getElem?, List.getElem?_append_left hlt, ← List.get?_eq_getElem?] at hc'
    exact hr a c' ha hc'
  · subst heq
    rw [List.get?_eq_getElem?, List.getElem?_concat_length] at hc'
    obtain rfl := Option.some.inj hc'
    exact hc
  · have : (h ++ [c]).get? a = none := by
      refine List.get?_eq_none.mpr ?_
      simp only [List.length_append, List.length_cons, List.length_nil]
      omega
    rw [this] at hc'
    exact absurd hc' (by simp)

theorem heapInv_append {n : ℕ} {h₀ h : Heap} {c : HCell}
    (inv : HeapInv n h₀ h) (hc : entriesGE n c.fields) : HeapInv n h₀ (h ++ [c]) := by
  refine ⟨?_, ?_, regionGE_append inv.region hc⟩
  · intro a ha
    rw [List.get?_eq_getElem?,
      List.getElem?_append_left (lt_of_lt_of_le ha inv.len), ← List.get?_eq_getElem?]
    exact inv.below a ha
  · have := inv.len
    simp only [List.length_append, List.length_cons]
    omega

theorem heapInv_writeC {n : ℕ} {h₀ h : Heap} {a : ℕ} {c : HCell}
    (inv : HeapInv n h₀ h) (ha : n ≤ a) (hc : entriesGE n c.fields) :
    HeapInv n h₀ (h.writeC a c) := by
  refine ⟨?_, ?_, ?_⟩
  · intro a' ha'
    rw [Heap.writeC, List.get?_eq_getElem?, List.getElem?_set_ne (by omega),
      ← List.get?_eq_getElem?]
    exact inv.below a' ha'
  · rw [Heap.writeC, List.length_set]; exact inv.len
  · intro a' c' ha' hc'
    rw [Heap.writeC] at hc'
    by_cases heq : a = a'
    · subst heq
      by_cases hlen : a < h.length
      · rw [List.get?_eq_getElem?, List.getElem?_set_self hlen] at hc'
        obtain rfl := Option.some.inj hc'
        exact hc
      · rw [List.set_eq_of_length_le (by omega)] at hc'
        exact inv.region a c' ha' hc'
    · rw [List.get?_eq_getElem?, List.getElem?_set_ne heq, ← List.get?_eq_getElem?] at hc'
      exact inv.region a' c' ha' hc'

theorem heapInv_setField {n : ℕ} {h₀ h : Heap} {a : ℕ} {k : String} {v : HVal}
    (inv : HeapInv n h₀ h) (ha : n ≤ a) (hv : HVal.geRefs n v) :
    HeapInv n h₀ (h.setField a k v) := by
  rw [Heap.setField]
  cases hrc : h.readC a with
  | none => exact inv
  | some c =>
      refine heapInv_writeC inv ha ?_
      exact entriesGE_setEntry (inv.region a c ha hrc) hv

theorem heapInv_getField_ref {n : ℕ} {h₀ h : Heap} {a b : ℕ} {k : String}
    (inv : HeapInv n h₀ h) (ha : n ≤ a) (hf : h.getField a k = some (.ref b)) : n ≤ b := by
  rw [Heap.getField] at hf
  cases hrc : h.readC a with
  | none => rw [hrc] at hf; exact absurd hf (by simp)
  | some c =>
      rw [hrc] at hf
      have hmem := lookupEntry_mem hf
      have := inv.region a c ha hrc (k, .ref b) hmem
      exact this

theorem setNestedH_inv {n : ℕ} {h₀ : Heap} {v : HVal} :
    ∀ (segs : List String) (h : Heap) (a : ℕ), HeapInv n h₀ h → n ≤ a →
      HVal.geRefs n v → HeapInv n h₀ (setNestedH h a segs v) := by
  intro segs
  induction segs with
  | nil => intro h a inv _ _; exact inv
  | cons k rest ih =>
      intro h a inv ha hv
      cases rest with
      | nil => exact heapInv_setField inv ha hv
      | cons k' rest' =>
          rw [setNestedH]
          cases hgf : h.getField a k with
          | some val =>
              cases val with
              | ref b => exact ih h b inv (heapInv_getField_ref inv ha hgf) hv
              | prim p =>
                  have inv1 : HeapInv n h₀ (h ++ [⟨false, []⟩]) :=
                    heapInv_append inv (by intro kv hkv; exact absurd hkv (by simp))
                  have hb : n ≤ h.length := inv.len
                  have inv2 : HeapInv n h₀
                      ((Heap.alloc h ⟨false, []⟩).1.setField a k (.ref h.length)) :=
                    heapInv_setField inv1 ha hb
                  exact ih _ h.length inv2 hb hv
          | none =>
              have inv1 : HeapInv n h₀ (h ++ [⟨false, []⟩]) :=
                heapInv_append inv (by intro kv hkv; exact absurd hkv (by simp))
              have hb : n ≤ h.length := inv.len
              have inv2 : HeapInv n h₀
                  ((Heap.alloc h ⟨false, []⟩).1.setField a k (.ref h.length)) :=
                heapInv_setField inv1 ha hb
              exact ih _ h.length inv2 hb hv
          simp

theorem writeFlatH_inv {n : ℕ} {h₀ h : Heap} {a : ℕ} {attr : String} {v : HVal}
    (inv : HeapInv n h₀ h) (ha : n ≤ a) (hv : HVal.geRefs n v) :
    HeapInv n h₀ (writeFlatH h a attr v) := by
  rw [writeFlatH]
  cases hin : h.getField a "inputs" with
  | some val =>
      cases val with
      | ref b => exact heapInv_setField inv (heapInv_getField_ref inv ha hin) hv
      | prim p =>
          cases hpr : h.getField a "properties" with
          | some val' =>
              cases val' with
              | ref b => exact heapInv_setField inv (heapInv_getField_ref inv ha hpr) hv
              | prim p' => exact heapInv_setField inv ha hv
          | none => exact heapInv_setField inv ha hv
  | none =>
      cases hpr : h.getField a "properties" with
      | some val' =>
          cases val' with
          | ref b => exact heapInv_setField inv (heapInv_getField_ref inv ha hpr) hv
          | prim p' => exact heapInv_setField inv ha hv
      | none => exact heapInv_setField inv ha hv

theorem overJEntries_inv {n : ℕ} {h₀ : Heap} {f : Heap → JVal → Heap × HVal}
    (hf : ∀ h v, HeapInv n h₀ h → HeapInv n h₀ (f h v).1 ∧ HVal.geRefs n (f h v).2) :
    ∀ (l : List (String × JVal)) (h : Heap), HeapInv n h₀ h →
      HeapInv n h₀ (overJEntries f h l).1 ∧ entriesGE n (overJEntries f h l).2 := by
  intro l
  induction l with
  | nil =>
      intro h inv
      exact ⟨inv, by intro kv hkv; simp [overJEntries] at hkv⟩
  | cons kv rest ih =>
      intro h inv
      obtain ⟨k, v⟩ := kv
      rw [overJEntries]
      obtain ⟨inv1, hv1⟩ := hf h v inv
      obtain ⟨inv2, hl2⟩ := ih (f h v).1 inv1
      refine ⟨inv2, ?_⟩
      intro kv' hkv'
      rcases List.mem_cons.mp hkv' with h' | h'
      · rw [h']; exact hv1
      · exact hl2 kv' h'

theorem allocJVal_inv {n : ℕ} {h₀ : Heap} :
    ∀ (fuel : ℕ) (h : Heap) (v : JVal), HeapInv n h₀ h →
      HeapInv n h₀ (allocJVal fuel h v).1 ∧ HVal.geRefs n (allocJVal fuel h v).2 := by
  intro fuel
  induction fuel with
  | zero => intro h v inv; exact ⟨inv, trivial⟩
  | succ fuel ih =>
      intro h v inv
      cases v with
      | null => exact ⟨inv, trivial⟩
      | bool b => exact ⟨inv, trivial⟩
      | num q => exact ⟨inv, trivial⟩
      | str s => exact ⟨inv, trivial⟩
      | obj b fs =>
          rw [allocJVal]
          obtain ⟨inv1, hl1⟩ := overJEntries_inv ih fs h inv
          constructor
          · exact heapInv_append inv1 hl1
          · exact inv1.len

theorem findNodeInEntries_ge {n : ℕ} {p : ℕ → Bool} :
    ∀ {l : List (String × HVal)} {a : ℕ}, findNodeInEntries p l = some a →
      entriesGE n l → n ≤ a := by
  intro l
  induction l with
  | nil => intro a hf _; exact absurd hf (by simp [findNodeInEntries])
  | cons kv rest ih =>
      intro a hf hl
      obtain ⟨k, v⟩ := kv
      cases v with
      | ref b =>
          rw [findNodeInEntries] at hf
          by_cases hp : p b
          · simp only [if_pos hp] at hf
            obtain rfl := Option.some.inj hf
            exact hl (k, .ref b) (List.mem_cons_self _ _)
          · simp only [if_neg hp] at hf
            exact ih hf (fun kv' hkv' => hl kv' (List.mem_cons_of_mem _ hkv'))
      | prim q =>
          rw [findNodeInEntries] at hf
          exact ih hf (fun kv' hkv' => hl kv' (List.mem_cons_of_mem _ hkv'))

theorem findNodeAddr_ge {n : ℕ} {h₀ h : Heap} {g a : ℕ} {key : String}
    (inv : HeapInv n h₀ h) (hg : n ≤ g) (hf : findNodeAddr h g key = some a) : n ≤ a := by
  rw [findNodeAddr] at hf
  cases hnodes : h.getField g "nodes" with
  | none =>
      simp only [hnodes] at hf
      exact absurd hf (by simp)
  | some val =>
      simp only [hnodes] at hf
      cases val with
      | prim q => simp at hf
      | ref an =>
          have han : n ≤ an := heapInv_getField_ref inv hg hnodes
          cases hrc : h.readC an with
          | none =>
              simp only [hrc] at hf
              exact absurd hf (by simp)
          | some c =>
              simp only [hrc] at hf
              have hge : entriesGE n c.fields := inv.region an c han hrc
              cases hq : jsToNumber key with
              | none =>
                  simp only [hq] at hf
                  exact findNodeInEntries_ge hf hge
              | some q =>
                  simp only [hq] at hf
                  cases hbyId : findNodeInEntries (fun a => nodeIdMatchesH h a q) c.fields with
                  | some a' =>
                      simp only [hbyId] at hf
                      obtain rfl := Option.some.inj hf.symm
                      exact findNodeInEntries_ge hbyId hge
                  | none =>
                      simp only [hbyId] at hf
                      exact findNodeInEntries_ge hf hge

theorem applyFieldH_inv {n : ℕ} {h₀ h : Heap} {g : ℕ} {fuel : ℕ} {field : ToolFieldConfig}
    {params : Params} {rand : ℚ} (inv : HeapInv n h₀ h) (hg : n ≤ g) :
    HeapInv n h₀ (applyFieldH fuel h g field params rand).1 := by
  cases hf : findNodeAddr h g field.mapping.node with
  | none =>
      simp only [applyFieldH, hf]
      exact inv
  | some na =>
      have hna : n ≤ na := findNodeAddr_ge inv hg hf
      cases hv : (resolveFieldValue field params rand).value with
      | none =>
          simp only [applyFieldH, hf, hv]
          exact inv
      | some v =>
          obtain ⟨inv1, hval1⟩ := allocJVal_inv fuel h v inv
          by_cases hdot : containsDot field.mapping.attributePath
          · by_cases hseg : (splitSegments field.mapping.attributePath).isEmpty
            · simp only [applyFieldH, hf, hv, hdot, hseg, if_true]
              exact inv1
            · simp only [applyFieldH, hf, hv, hdot, hseg, if_true, Bool.false_eq_true,
                if_false]
              exact setNestedH_inv _ _ na inv1 hna hval1
          · simp only [applyFieldH, hf, hv, Bool.not_eq_true] at hdot ⊢
            simp only [hdot, Bool.false_eq_true, if_false]
            exact writeFlatH_inv inv1 hna hval1

theorem applyFieldsH_inv {n : ℕ} {h₀ : Heap} {fuel : ℕ} {params : Params} :
    ∀ (fields : List ToolFieldConfig) (h : Heap) (g : ℕ) (rands : ℕ → ℚ),
      HeapInv n h₀ h → n ≤ g →
      HeapInv n h₀ (applyFieldsH fuel h g fields params rands).1 := by
  intro fields
  induction fields with
  | nil => intro h g rands inv _; exact inv
  | cons f rest ih =>
      intro h g rands inv hg
      rw [applyFieldsH]
      exact ih _ g _ (applyFieldH_inv inv hg) hg

theorem overFields_spec {f : Heap → HVal → Option (Heap × HVal)}
    (hf : ∀ (h : Heap) (v : HVal) (h' : Heap) (v' : HVal), f h v = some (h', v') →
      (∃ ext, h' = h ++ ext) ∧
        ∀ n, n ≤ h.length → (HVal.geRefs n v' ∧ (regionGE n h → regionGE n h'))) :
    ∀ (l : List (String × HVal)) (h h' : Heap) (l' : List (String × HVal)),
      overFields f h l = some (h', l') →
      (∃ ext, h' = h ++ ext) ∧
        ∀ n, n ≤ h.length → (entriesGE n l' ∧ (regionGE n h → regionGE n h')) := by
  intro l
  induction l with
  | nil =>
      intro h h' l' hov
      simp only [overFields, Option.some.injEq, Prod.mk.injEq] at hov
      obtain ⟨rfl, rfl⟩ := hov
      refine ⟨⟨[], by simp⟩, fun n hn => ⟨?_, fun hr => hr⟩⟩
      intro kv hkv
      exact absurd hkv (by simp)
  | cons kv rest ih =>
      intro h h' l' hov
      obtain ⟨k, v⟩ := kv
      rw [overFields] at hov
      cases hfv : f h v with
      | none =>
          simp only [hfv] at hov
          exact absurd hov (by simp)
      | some r =>
          obtain ⟨h1, v1⟩ := r
          simp only [hfv] at hov
          cases hrest : overFields f h1 rest with
          | none =>
              simp only [hrest] at hov
              exact absurd hov (by simp)
          | some r2 =>
              obtain ⟨h2, l2⟩ := r2
              simp only [hrest, Option.some.injEq, Prod.mk.injEq] at hov
              obtain ⟨rfl, rfl⟩ := hov
              obtain ⟨⟨ext1, hext1⟩, hprops1⟩ := hf h v h1 v1 hfv
              obtain ⟨⟨ext2, hext2⟩, hprops2⟩ := ih h1 h2 l2 hrest
              constructor
              · exact ⟨ext1 ++ ext2, by rw [hext2, hext1, List.append_assoc]⟩
              · intro n hn
                have hn1 : n ≤ h1.length := by
                  rw [hext1]
                  simp only [List.length_append]
                  omega
                obtain ⟨hv1, hr1⟩ := hprops1 n hn
                obtain ⟨hl2, hr2⟩ := hprops2 n hn1
                refine ⟨?_, fun hr => hr2 (hr1 hr)⟩
                intro kv' hkv'
                rcases List.mem_cons.mp hkv' with hm | hm
                · rw [hm]; exact hv1
                · exact hl2 kv' hm

theorem cloneV_spec :
    ∀ (fuel : ℕ) (h : Heap) (v : HVal) (h₁ : Heap) (v' : HVal),
      cloneV fuel h v = some (h₁, v') →
      (∃ ext, h₁ = h ++ ext) ∧
        ∀ n, n ≤ h.length → (HVal.geRefs n v' ∧ (regionGE n h → regionGE n h₁)) := by
  intro fuel
  induction fuel with
  | zero =>
      intro h v h₁ v' hc
      cases v with
      | prim p =>
          simp only [cloneV, Option.some.injEq, Prod.mk.injEq] at hc
          obtain ⟨rfl, rfl⟩ := hc
          exact ⟨⟨[], by simp⟩, fun n hn => ⟨trivial, fun hr => hr⟩⟩
      | ref a => simp [cloneV] at hc
  | succ fuel ih =>
      intro h v h₁ v' hc
      cases v with
      | prim p =>
          simp only [cloneV, Option.some.injEq, Prod.mk.injEq] at hc
          obtain ⟨rfl, rfl⟩ := hc
          exact ⟨⟨[], by simp⟩, fun n hn => ⟨trivial, fun hr => hr⟩⟩
      | ref a =>
          rw [cloneV] at hc
          cases hrc : h.readC a with
          | none =>
              simp only [hrc] at hc
              exact absurd hc (by simp)
          | some c =>
              simp only [hrc] at hc
              cases hov : overFields (cloneV fuel) h c.fields with
              | none =>
                  simp only [hov] at hc
                  exact absurd hc (by simp)
              | some r =>
                  obtain ⟨h2, fs⟩ := r
                  simp only [hov, Option.some.injEq, Prod.mk.injEq] at hc
                  obtain ⟨rfl, rfl⟩ := hc
                  obtain ⟨⟨ext, hext⟩, hprops⟩ :=
                    overFields_spec (fun hh vv hh' vv' => ih hh vv hh' vv')
                      c.fields h h2 fs hov
                  constructor
                  · refine ⟨ext ++ [⟨c.isArr, fs⟩], ?_⟩
                    show h2 ++ [(⟨c.isArr, fs⟩ : HCell)] = h ++ (ext ++ [⟨c.isArr, fs⟩])
                    rw [hext, List.append_assoc]
                  · intro n hn
                    obtain ⟨hfs, hreg⟩ := hprops n hn
                    constructor
                    · show n ≤ h2.length
                      rw [hext]
                      simp only [List.length_append]
                      omega
                    · intro hr
                      exact regionGE_append (hreg hr) hfs

theorem readFieldsWith_congr {f g : HVal → Option JVal} :
    ∀ (l : List (String × HVal)), (∀ kv ∈ l, f kv.2 = g kv.2) →
      readFieldsWith f l = readFieldsWith g l := by
  intro l
  induction l with
  | nil => intro _; rfl
  | cons kv rest ih =>
      intro hfg
      rw [readFieldsWith, readFieldsWith, hfg kv (List.mem_cons_self _ _),
        ih (fun kv' hkv' => hfg kv' (List.mem_cons_of_mem _ hkv'))]

theorem readV_frame {n : ℕ} {h h' : Heap}
    (hb : ∀ a, a < n → h'.get? a = h.get? a) (hcb : closedBelow n h) :
    ∀ (fuel : ℕ) (v : HVal), HVal.ltRefs n v → readV fuel h' v = readV fuel h v := by
  intro fuel
  induction fuel with
  | zero =>
      intro v _
      cases v with
      | prim p => rfl
      | ref a => rfl
  | succ fuel ih =>
      intro v hv
      cases v with
      | prim p => rfl
      | ref a =>
          have ha : a < n := hv
          show (match h'.readC a with
            | none => none
            | some c =>
                match readFieldsWith (readV fuel h') c.fields with
                | none => none
                | some fs => some (JVal.obj c.isArr fs)) =
            (match h.readC a with
            | none => none
            | some c =>
                match readFieldsWith (readV fuel h) c.fields with
                | none => none
                | some fs => some (JVal.obj c.isArr fs))
          rw [show h'.readC a = h.readC a from hb a ha]
          cases hrc : h.readC a with
          | none => rfl
          | some c =>
              have hlt : entriesLT n c.fields := hcb a c ha hrc
              simp only [readFieldsWith_congr c.fields (fun kv hkv => ih kv.2 (hlt kv hkv))]

theorem heapWFb_closedBelow {h : Heap} (hw : heapWFb h = true) : closedBelow h.length h := by
  intro a c ha hc
  intro kv hkv
  have hcmem : c ∈ h := List.get?_mem hc
  rw [heapWFb, List.all_eq_true] at hw
  have h1 := hw c hcmem
  rw [List.all_eq_true] at h1
  have h2 := h1 kv hkv
  cases hv : kv.2 with
  | ref b =>
      rw [hv] at h2
      simpa using h2
  | prim p => trivial

/-- Claim C1: `applyToolParamsToWorkflow` never mutates the template it is
given — it operates on a deep copy (`structuredClone` allocates a fresh
root, at or above the pre-call heap length), and the template is
deep-equal to itself before and after the call: for every read fuel, the
deep read of the template reference is unchanged by the run. -/
theorem apply_never_mutates_template (fuel fuelR : ℕ) (h : Heap) (g : ℕ)
    (tool : ToolDefinition) (params : Params) (rands : ℕ → ℚ) (out : Heap × ℕ × List String)
    (hwf : heapWFb h = true) (hg : g < h.length)
    (hrun : applyToolParamsToWorkflowH fuel h g tool params rands = some out) :
    readV fuelR out.1 (.ref g) = readV fuelR h (.ref g) ∧ h.length ≤ out.2.1 := by
  rw [applyToolParamsToWorkflowH] at hrun
  cases hcl : cloneV fuel h (.ref g) with
  | none =>
      simp only [hcl] at hrun
      exact absurd hrun (by simp)
  | some r =>
      obtain ⟨h₁, cv⟩ := r
      cases cv with
      | prim p =>
          simp only [hcl] at hrun
          exact absurd hrun (by simp)
      | ref g' =>
          simp only [hcl, Option.some.injEq] at hrun
          obtain ⟨⟨ext, hext⟩, hprops⟩ := cloneV_spec fuel h (.ref g) h₁ (.ref g') hcl
          obtain ⟨hg', hreg⟩ := hprops h.length (le_refl _)
          have invLen : HeapInv h.length h h₁ := by
            refine ⟨?_, ?_, hreg (regionGE_of_full h)⟩
            · intro a ha
              rw [hext, List.get?_eq_getElem?, List.getElem?_append_left ha,
                ← List.get?_eq_getElem?]
            · rw [hext]
              simp only [List.length_append]
              omega
          have inv2 := @applyFieldsH_inv h.length h fuel params tool.fields h₁ g' rands
            invLen hg'
          rw [← hrun]
          refine ⟨?_, hg'⟩
          exact readV_frame (fun a ha => inv2.below a ha) (heapWFb_closedBelow hwf)
            fuelR (.ref g) hg

/-- Witness for C1: on the concrete example heap, the template read is
unchanged and the clone root is a fresh address. -/
theorem apply_never_mutates_template_witness :
    heapWFb exHeap = true
    ∧ readV 6 ((applyToolParamsToWorkflowH 8 exHeap 3 exHeapTool [("p", .str "new")]
          (fun _ => 0)).getD (exHeap, 0, [])).1 (.ref 3) = readV 6 exHeap (.ref 3)
    ∧ exHeap.length ≤ ((applyToolParamsToWorkflowH 8 exHeap 3 exHeapTool
          [("p", .str "new")] (fun _ => 0)).getD (exHeap, 0, [])).2.1 :=
  have happ := apply_never_mutates_template 8 6 exHeap 3 exHeapTool [("p", .str "new")]
    (fun _ => 0)
    ((applyToolParamsToWorkflowH 8 exHeap 3 exHeapTool [("p", .str "new")]
      (fun _ => 0)).getD (exHeap, 0, []))
    rfl (by decide) rfl
  ⟨rfl, happ.1, happ.2⟩
